import Mathlib

/-!
Verification of the allocation engine of `src/selection.py` (quota-based
randomized lottery): quota computation, per-category draw, shortfall
redistribution, single-pool orchestration (`run_lottery`) and per-group
repetition (`run_lottery_per_turma`).

Modelling conventions:
* Python `float` percentages are modelled as exact rationals (`ℚ`).
* Python `int` is modelled as `Int` (arbitrary precision, as in Python).
* The category strings `"Aluno"`, `"Servidor"`, `"Comunidade Externa"`
  (the fixed `PRIORITY` enumeration, validated on input by
  `read_candidates`) are modelled by the inductive type `Cat`.
* A candidate's `row` dict is modelled as an association list.
* `random.Random` (a library object, not part of the repository) is
  modelled as a deterministic pseudo-random stream of naturals threaded
  through the computation in state-passing style; `rng.sample` and
  `rng.shuffle` are modelled by repeated pick-and-remove driven by that
  stream.  The claims under verification do not depend on the actual
  distribution of the generator, only on it being a deterministic
  function of the seed producing permutations / subsequences.
* Python exceptions (`ValueError`) are modelled with `Except String`.
-/

/-- The three candidate categories, in priority order (`PRIORITY` in the
source: `["Aluno", "Servidor", "Comunidade Externa"]`). -/
inductive Cat : Type
  | aluno
  | servidor
  | comunidadeExterna
deriving DecidableEq, Repr

/-- `PRIORITY = ["Aluno", "Servidor", "Comunidade Externa"]`. -/
def PRIORITY : List Cat := [Cat.aluno, Cat.servidor, Cat.comunidadeExterna]

open scoped List

deriving instance DecidableEq for Except

-- Restore definitional transparency of the rational-number operations so
-- that concrete runs of the engine can be evaluated by `decide`.
attribute [local semireducible] Rat.mul Rat.inv Rat.add Rat.sub

/-- A candidate's CSV row (Python `Dict[str, str]`), as an association list. -/
abbrev Row : Type := List (String × String)

/-- The `Candidate` dataclass: `row`, `categoria`, `turma`.  Like the Python
dataclass, equality is structural (field-wise). -/
structure Candidate : Type where
  row : Row
  categoria : Cat
  turma : Option String
deriving DecidableEq, Repr

instance : DecidableEq (List (String × (List Row × List Row))) :=
  instDecidableEqList

/-- `row.get(key, default)` on the association-list model of a dict. -/
def rowGet (r : Row) (key default : String) : String :=
  ((r.lookup key).getD default)

/-- `_trueish`: `val.strip().lower()` compared against the accepted truthy
strings.  `strip` and `lower` are modelled on the character list (the flag
values in play are ASCII). -/
def trueish (val : String) : Bool :=
  let v := String.mk
    ((((val.data.dropWhile Char.isWhitespace).reverse.dropWhile
        Char.isWhitespace).reverse).map Char.toLower)
  v = "true" || v = "1" || v = "sim" || v = "yes" || v = "y"

-- ---------------------------------------------------------------------
-- Deterministic model of `random.Random`
-- ---------------------------------------------------------------------

/-- One step of the modelled pseudo-random stream (a 64-bit linear
congruential step; stand-in for the library Mersenne Twister, which is not
part of the repository). -/
def rngNext (s : Nat) : Nat :=
  (s * 6364136223846793005 + 1442695040888963407) % 2 ^ 64

/-- `random.Random(seed)`: the initial stream state derived from the integer
seed. -/
def rngInit (seed : Int) : Nat :=
  rngNext ((seed.emod (2 ^ 64)).toNat)

/-- Core of the modelled sampler: draw up to `k` elements without
replacement by repeatedly removing a stream-chosen position from the pool.
Returns the new stream state, the drawn elements in draw order, and the
undrawn remainder of the pool. -/
def pickList : Nat → Nat → List α → Nat × List α × List α
  | s, 0, pool => (s, [], pool)
  | s, _ + 1, [] => (s, [], [])
  | s, k + 1, x :: xs =>
      let pool := x :: xs
      let j := s % pool.length
      let c := pool.getD j x
      let rest := pool.eraseIdx j
      let out := pickList (rngNext s) k rest
      (out.1, c :: out.2.1, out.2.2)

/-- Model of `rng.sample(l, k)`: `k` draws without replacement. -/
def sample (s : Nat) (l : List α) (k : Nat) : Nat × List α :=
  let out := pickList s k l
  (out.1, out.2.1)

/-- Model of `rng.shuffle(l)`: a full draw of the pool. -/
def shuffle (s : Nat) (l : List α) : Nat × List α :=
  let out := pickList s l.length l
  (out.1, out.2.1)

theorem getD_cons_eraseIdx_perm (l : List α) (j : Nat) (d : α) (h : j < l.length) :
    l.getD j d :: l.eraseIdx j ~ l := by
  induction l generalizing j with
  | nil => simp at h
  | cons x xs ih =>
      cases j with
      | zero => simp
      | succ j' =>
          have hj : j' < xs.length := by simpa using h
          have hperm := ih j' hj
          calc (x :: xs).getD (j' + 1) d :: (x :: xs).eraseIdx (j' + 1)
              = xs.getD j' d :: x :: xs.eraseIdx j' := by simp [List.eraseIdx]
            _ ~ x :: xs.getD j' d :: xs.eraseIdx j' := List.Perm.swap _ _ _
            _ ~ x :: xs := hperm.cons x

/-- The drawn elements together with the leftover pool are a permutation of
the input pool. -/
theorem pickList_perm (s k : Nat) (l : List α) :
    (pickList s k l).2.1 ++ (pickList s k l).2.2 ~ l := by
  induction k generalizing s l with
  | zero => simp [pickList]
  | succ k ih =>
      cases l with
      | nil => simp [pickList]
      | cons x xs =>
          have hlen : s % (x :: xs).length < (x :: xs).length :=
            Nat.mod_lt _ (by simp)
          have hperm := getD_cons_eraseIdx_perm (x :: xs) (s % (x :: xs).length) x hlen
          simp only [pickList]
          exact ((ih (rngNext s) _).cons _).trans hperm

theorem pickList_length_fst (s k : Nat) (l : List α) :
    (pickList s k l).2.1.length = min k l.length := by
  induction k generalizing s l with
  | zero => simp [pickList]
  | succ k ih =>
      cases l with
      | nil => simp [pickList]
      | cons x xs =>
          have hlen : s % (x :: xs).length < (x :: xs).length :=
            Nat.mod_lt _ (by simp)
          have herase : ((x :: xs).eraseIdx (s % (x :: xs).length)).length + 1
              = (x :: xs).length := List.length_eraseIdx_add_one hlen
          simp only [pickList, List.length_cons, ih]
          simp only [List.length_cons] at herase
          omega

theorem sample_append_perm (s : Nat) (l : List α) (k : Nat) :
    (sample s l k).2 ++ (pickList s k l).2.2 ~ l :=
  pickList_perm s k l

theorem sample_length (s : Nat) (l : List α) (k : Nat) :
    (sample s l k).2.length = min k l.length :=
  pickList_length_fst s k l

theorem sample_subperm (s : Nat) (l : List α) (k : Nat) :
    (sample s l k).2 <+~ l :=
  ((List.sublist_append_left _ _).subperm).trans (pickList_perm s k l).subperm

theorem shuffle_perm (s : Nat) (l : List α) : (shuffle s l).2 ~ l := by
  have hlen := pickList_length_fst s l.length l
  have hperm := pickList_perm s l.length l
  have hleft : (pickList s l.length l).2.2 = [] := by
    have := hperm.length_eq
    simp only [List.length_append] at this
    simp only [Nat.min_self] at hlen
    have : (pickList s l.length l).2.2.length = 0 := by omega
    exact List.length_eq_zero.mp this
  simpa [shuffle, hleft] using hperm

-- ---------------------------------------------------------------------
-- Quota Calculator
-- ---------------------------------------------------------------------

/-- Sum of an integer-valued mapping over the `PRIORITY` list. -/
def sumOverPriority (f : Cat → Int) : Int :=
  (PRIORITY.map f).sum

/-- The remainder-distribution loop of `compute_quota`: while
`remainder > 0`, add one slot to `PRIORITY[i % len(PRIORITY)]` and advance
`i`.  The first argument is the (non-negative) remainder. -/
def distributeRemainder : Nat → Nat → (Cat → Int) → (Cat → Int)
  | 0, _, base => base
  | r + 1, i, base =>
      let cat := PRIORITY.getD (i % PRIORITY.length) Cat.aluno
      distributeRemainder r (i + 1) (fun c => if c = cat then base c + 1 else base c)

/-- `compute_quota(vagas, pct_by_cat)`: floor each share, then hand the
leftover slots one by one to the categories in priority order (cycling). -/
def compute_quota (vagas : Int) (pct_by_cat : Cat → ℚ) : Cat → Int :=
  let base : Cat → Int := fun cat => Int.floor ((vagas : ℚ) * max 0 (pct_by_cat cat))
  let allocated := sumOverPriority base
  let remainder := vagas - allocated
  distributeRemainder remainder.toNat 0 base

-- ---------------------------------------------------------------------
-- Category Drawer
-- ---------------------------------------------------------------------

/-- `partition_by_category`: the candidates of each category, in input
order (the source appends each candidate to its category's bucket). -/
def partition_by_category (candidates : List Candidate) : Cat → List Candidate :=
  fun cat => candidates.filter (fun c => c.categoria = cat)

/-- `draw_for_category(rng, group, k)`, with the rng state threaded
explicitly: empty draw when `k <= 0` or the pool is empty; a full shuffle
when `k >= len(group)`; otherwise `rng.sample` the winners and keep the
rest (`[c for c in group if c not in selected]`, i.e. value-equality
filtering) as a shuffled waitlist. -/
def draw_for_category (s : Nat) (group : List Candidate) (k : Int) :
    Nat × List Candidate × List Candidate :=
  if k ≤ 0 ∨ group = [] then (s, [], group)
  else if (group.length : Int) ≤ k then
    let out := shuffle s group
    (out.1, out.2, [])
  else
    let out := sample s group k.toNat
    let remaining := group.filter (fun c => decide (c ∉ out.2))
    let out2 := shuffle out.1 remaining
    (out2.1, out.2, out2.2)

-- ---------------------------------------------------------------------
-- Shortfall Redistributor
-- ---------------------------------------------------------------------

/-- Pointwise update of a per-category mapping. -/
def updateCat (f : Cat → List Candidate) (cat : Cat) (v : List Candidate) :
    Cat → List Candidate :=
  fun c => if c = cat then v else f c

/-- The inner `while waitlist and total_deficit > 0` loop of
`redistribute_shortfalls`: pop the front of the waitlist into the selected
list while deficit remains.  Returns (selected, waitlist, deficit). -/
def fillFromCat (sel : List Candidate) :
    List Candidate → Int → List Candidate × List Candidate × Int
  | [], d => (sel, [], d)
  | c :: rest, d =>
      if 0 < d then fillFromCat (sel ++ [c]) rest (d - 1)
      else (sel, c :: rest, d)

/-- `redistribute_shortfalls(rng, per_cat_selected, per_cat_waiting,
per_cat_quota)` (the `rng` argument is unused by the source as well):
compute the per-category deficits, and if any, refill from the waitlists
in priority order.  Returns the updated (selected, waiting) mappings. -/
def redistribute_shortfalls (rng : Nat) (per_cat_selected per_cat_waiting : Cat → List Candidate)
    (per_cat_quota : Cat → Int) : (Cat → List Candidate) × (Cat → List Candidate) :=
  let deficit_by_cat : Cat → Int :=
    fun cat => max 0 (per_cat_quota cat - (per_cat_selected cat).length)
  let total_deficit := sumOverPriority deficit_by_cat
  if total_deficit = 0 then (per_cat_selected, per_cat_waiting)
  else
    let step := fun (acc : (Cat → List Candidate) × (Cat → List Candidate) × Int) (cat : Cat) =>
      let out := fillFromCat (acc.1 cat) (acc.2.1 cat) acc.2.2
      (updateCat acc.1 cat out.1, updateCat acc.2.1 cat out.2.1, out.2.2)
    let out := PRIORITY.foldl step (per_cat_selected, per_cat_waiting, total_deficit)
    (out.1, out.2.1)

-- ---------------------------------------------------------------------
-- Lottery Orchestrator
-- ---------------------------------------------------------------------

/-- The lottery body shared verbatim by `run_lottery` and the per-group
loop of `run_lottery_per_turma`: partition, compute quotas, draw per
category in priority order (threading the rng state), redistribute
shortfalls, concatenate the winners in priority order truncated to
`vagas`, and concatenate the waitlists in priority order. -/
def lottery_core (rng : Nat) (candidates : List Candidate) (vagas : Int)
    (pcts : Cat → ℚ) : List Candidate × List Candidate :=
  let groups := partition_by_category candidates
  let quotas := compute_quota vagas pcts
  let step := fun (acc : Nat × (Cat → List Candidate) × (Cat → List Candidate)) (cat : Cat) =>
    let out := draw_for_category acc.1 (groups cat) (quotas cat)
    (out.1, updateCat acc.2.1 cat out.2.1, updateCat acc.2.2 cat out.2.2)
  let drawn := PRIORITY.foldl step (rng, fun _ => [], fun _ => [])
  let redis := redistribute_shortfalls drawn.1 drawn.2.1 drawn.2.2 quotas
  let aprovados := ((PRIORITY.map redis.1).flatten).take vagas.toNat
  let espera := (PRIORITY.map redis.2).flatten
  (aprovados, espera)

/-- `run_lottery(candidates, vagas, pct_aluno, pct_servidor,
pct_comunidade, seed)`: return `([], [])` when `vagas <= 0`; raise
`ValueError` when the percentage sum is non-positive; otherwise normalize
the percentages, seed the rng, run the lottery body, and project the
candidates to their rows. -/
def run_lottery (candidates : List Candidate) (vagas : Int)
    (pct_aluno pct_servidor pct_comunidade : ℚ) (seed : Int) :
    Except String (List Row × List Row) :=
  if vagas ≤ 0 then .ok ([], [])
  else
    let total_pct := pct_aluno + pct_servidor + pct_comunidade
    if total_pct ≤ 0 then .error "A soma dos percentuais deve ser > 0"
    else
      let pcts : Cat → ℚ := fun cat =>
        match cat with
        | Cat.aluno => pct_aluno / total_pct
        | Cat.servidor => pct_servidor / total_pct
        | Cat.comunidadeExterna => pct_comunidade / total_pct
      let out := lottery_core (rngInit seed) candidates vagas pcts
      .ok (out.1.map (fun c => c.row), out.2.map (fun c => c.row))

-- ---------------------------------------------------------------------
-- Grouped Lottery Runner (per turma)
-- ---------------------------------------------------------------------

/-- The grouping key used by `run_lottery_per_turma`: `c.turma or ""`. -/
def keyOf (c : Candidate) : String :=
  c.turma.getD ""

/-- The keys of a Python dict built by `setdefault` while iterating the
candidate list: every distinct key, in first-occurrence order. -/
def firstKeys : List String → List String
  | [] => []
  | k :: rest => k :: (firstKeys rest).filter (fun x => decide (x ≠ k))

/-- The candidates grouped under turma key `t` (the value stored by the
`turmas.setdefault(t, []).append(c)` loop, in input order). -/
def turmaGroup (candidates : List Candidate) (t : String) : List Candidate :=
  candidates.filter (fun c => keyOf c = t)

/-- `sample_by_turma[t]`: the row of the first candidate whose `turma`
field is exactly `t` (the source skips `None` turmas when building the
sample map). -/
def sampleRowFor (candidates : List Candidate) (t : String) : Option Row :=
  (candidates.find? (fun c => c.turma = some t)).map (fun c => c.row)

/-- `_allowed_cats_for_turma(sample_row)`: a category is allowed when its
`[Vaga]` flag is truthy (missing flags default to `"true"`); when no flag
is set, all of `PRIORITY` is allowed. -/
def allowed_cats_for_turma (sample_row : Row) : List Cat :=
  let allowed :=
    (if trueish (rowGet sample_row "Aluno [Vaga]" "true") then [Cat.aluno] else []) ++
    (if trueish (rowGet sample_row "Servidor [Vaga]" "true") then [Cat.servidor] else []) ++
    (if trueish (rowGet sample_row "Externo [Vaga]" "true") then [Cat.comunidadeExterna] else [])
  if allowed = [] then PRIORITY else allowed

/-- Sum of a rational-valued mapping over the `PRIORITY` list. -/
def sumPctOverPriority (f : Cat → ℚ) : ℚ :=
  (PRIORITY.map f).sum

/-- `_normalize_pcts(pcts)`: clamp each percentage at `0`, fail when their
sum is non-positive, else divide by the sum. -/
def normalize_pcts (pcts : Cat → ℚ) : Except String (Cat → ℚ) :=
  let total := sumPctOverPriority (fun c => max 0 (pcts c))
  if total ≤ 0 then .error "A soma dos percentuais deve ser > 0"
  else .ok (fun c => max 0 (pcts c) / total)

/-- `vagas_por_turma.get(turma, 0)` on the association-list model of the
per-turma slot mapping. -/
def getVagas (vagas_por_turma : List (String × Int)) (t : String) : Int :=
  (vagas_por_turma.lookup t).getD 0

/-- Modelled from the spec: the per-group seed is derived by hashing the
UTF-8 encoding of `"{seed}|{turma}"` with a fixed-width cryptographic
digest (`hashlib.sha256`, a library function outside this repository) and
reading a prefix of the digest as an integer.  Modelled here by a
deterministic string hash of the same concatenation; the claims depend
only on the derived seed being a function of the global seed and the
group name. -/
def derive_seed (seed : Int) (turma : String) : Int :=
  ((toString seed ++ "|" ++ turma).data.foldl
    (fun h ch => (h * 31 + ch.toNat) % 2 ^ 64) 7 : Nat)

/-- The body of the per-turma loop of `run_lottery_per_turma`: empty result
when the turma's slot count is non-positive; otherwise restrict to the
turma's allowed categories, re-normalize the percentages over them
(raising when they sum to zero), seed the turma rng, and run the lottery
body. -/
def process_turma (pcts : Cat → ℚ) (seed : Int) (turma : String)
    (cands : List Candidate) (sample_row : Row) (vagas : Int) :
    Except String (List Row × List Row) :=
  if vagas ≤ 0 then .ok ([], [])
  else
    let allowed := allowed_cats_for_turma sample_row
    let cands_allowed := cands.filter (fun c => c.categoria ∈ allowed)
    let pcts_turma : Cat → ℚ := fun cat => if cat ∈ allowed then pcts cat else 0
    match normalize_pcts pcts_turma with
    | .error e => .error e
    | .ok pcts2 =>
        let rng := rngInit (derive_seed seed turma)
        let out := lottery_core rng cands_allowed vagas pcts2
        .ok (out.1.map (fun c => c.row), out.2.map (fun c => c.row))

/-- The `for turma, cands in turmas.items()` loop: process each turma key
in order, propagating the first raised error. -/
def process_all (pcts : Cat → ℚ) (seed : Int) (candidates : List Candidate)
    (vagas_por_turma : List (String × Int)) :
    List String → Except String (List (String × (List Row × List Row)))
  | [] => .ok []
  | t :: rest =>
      match process_turma pcts seed t (turmaGroup candidates t)
          ((sampleRowFor candidates t).getD []) (getVagas vagas_por_turma t) with
      | .error e => .error e
      | .ok r =>
          match process_all pcts seed candidates vagas_por_turma rest with
          | .error e => .error e
          | .ok rs => .ok ((t, r) :: rs)

/-- `run_lottery_per_turma(candidates, vagas_por_turma, pct_aluno,
pct_servidor, pct_comunidade, seed)`: group the candidates by turma key,
normalize the global percentages, and run the lottery independently per
turma with a turma-derived seed. -/
def run_lottery_per_turma (candidates : List Candidate)
    (vagas_por_turma : List (String × Int))
    (pct_aluno pct_servidor pct_comunidade : ℚ) (seed : Int) :
    Except String (List (String × (List Row × List Row))) :=
  let globalPcts : Cat → ℚ := fun cat =>
    match cat with
    | Cat.aluno => pct_aluno
    | Cat.servidor => pct_servidor
    | Cat.comunidadeExterna => pct_comunidade
  match normalize_pcts globalPcts with
  | .error e => .error e
  | .ok pcts =>
      process_all pcts seed candidates vagas_por_turma
        (firstKeys (candidates.map keyOf))

-- ---------------------------------------------------------------------
-- Quota Calculator lemmas
-- ---------------------------------------------------------------------

theorem sumOverPriority_eq (f : Cat → Int) :
    sumOverPriority f = f Cat.aluno + f Cat.servidor + f Cat.comunidadeExterna := by
  simp [sumOverPriority, PRIORITY]
  ring

theorem sumOverPriority_update_one (base : Cat → Int) (cat : Cat) :
    sumOverPriority (fun c => if c = cat then base c + 1 else base c)
      = sumOverPriority base + 1 := by
  cases cat <;> simp [sumOverPriority_eq] <;> ring

theorem distributeRemainder_sum (r : Nat) : ∀ (i : Nat) (base : Cat → Int),
    sumOverPriority (distributeRemainder r i base) = sumOverPriority base + r := by
  induction r with
  | zero => intro i base; simp [distributeRemainder]
  | succ r ih =>
      intro i base
      rw [distributeRemainder, ih, sumOverPriority_update_one]
      push_cast
      ring

theorem distributeRemainder_nonneg (r : Nat) : ∀ (i : Nat) (base : Cat → Int),
    (∀ c, 0 ≤ base c) → ∀ c, 0 ≤ distributeRemainder r i base c := by
  induction r with
  | zero => intro i base h c; simpa [distributeRemainder] using h c
  | succ r ih =>
      intro i base h c
      rw [distributeRemainder]
      refine ih _ _ (fun c' => ?_) c
      have hb := h c'
      split <;> omega

theorem compute_quota_base_nonneg (vagas : Int) (pct : Cat → ℚ) (hv : 0 ≤ vagas) (c : Cat) :
    0 ≤ Int.floor ((vagas : ℚ) * max 0 (pct c)) := by
  refine Int.floor_nonneg.mpr (mul_nonneg ?_ (le_max_left 0 _))
  exact_mod_cast hv

theorem compute_quota_nonneg (vagas : Int) (pct : Cat → ℚ) (hv : 0 ≤ vagas) :
    ∀ c, 0 ≤ compute_quota vagas pct c := by
  intro c
  unfold compute_quota
  exact distributeRemainder_nonneg _ _ _ (fun c' => compute_quota_base_nonneg vagas pct hv c') c

/-- Whatever the percentages, the quotas always sum to at least `vagas`
(the floors can only overshoot `vagas` when some percentage is negative;
the remainder loop tops the sum up to `vagas` otherwise). -/
theorem compute_quota_sum_ge (vagas : Int) (pct : Cat → ℚ) (hv : 0 ≤ vagas) :
    vagas ≤ sumOverPriority (compute_quota vagas pct) := by
  unfold compute_quota
  rw [distributeRemainder_sum]
  have hnn : 0 ≤ sumOverPriority fun cat => Int.floor ((vagas : ℚ) * max 0 (pct cat)) := by
    rw [sumOverPriority_eq]
    have h1 := compute_quota_base_nonneg vagas pct hv Cat.aluno
    have h2 := compute_quota_base_nonneg vagas pct hv Cat.servidor
    have h3 := compute_quota_base_nonneg vagas pct hv Cat.comunidadeExterna
    linarith
  omega

/-- C2: for every non-negative total slot count and every assignment of
non-negative percentages to the three categories summing to 1,
`compute_quota` returns non-negative integer quotas summing exactly to the
slot count, and all quotas are 0 when the slot count is 0. -/
theorem C2_compute_quota_sum_nonneg (vagas : Int) (pct : Cat → ℚ)
    (hv : 0 ≤ vagas) (hnn : ∀ c, 0 ≤ pct c)
    (hsum : pct Cat.aluno + pct Cat.servidor + pct Cat.comunidadeExterna = 1) :
    sumOverPriority (compute_quota vagas pct) = vagas ∧
    (∀ c, 0 ≤ compute_quota vagas pct c) ∧
    (vagas = 0 → ∀ c, compute_quota vagas pct c = 0) := by
  have hmax : ∀ c, max 0 (pct c) = pct c := fun c => max_eq_right (hnn c)
  have hfloor : ∀ c : Cat, ((Int.floor ((vagas : ℚ) * max 0 (pct c)) : Int) : ℚ)
      ≤ (vagas : ℚ) * pct c := by
    intro c
    rw [hmax c]
    exact Int.floor_le _
  have hmul : (vagas : ℚ) * pct Cat.aluno + (vagas : ℚ) * pct Cat.servidor
      + (vagas : ℚ) * pct Cat.comunidadeExterna = (vagas : ℚ) := by
    have : (vagas : ℚ) * pct Cat.aluno + (vagas : ℚ) * pct Cat.servidor
        + (vagas : ℚ) * pct Cat.comunidadeExterna
        = (vagas : ℚ) * (pct Cat.aluno + pct Cat.servidor + pct Cat.comunidadeExterna) := by
      ring
    rw [this, hsum, mul_one]
  have halloc : sumOverPriority (fun cat => Int.floor ((vagas : ℚ) * max 0 (pct cat)))
      ≤ vagas := by
    rw [sumOverPriority_eq]
    have h1 := hfloor Cat.aluno
    have h2 := hfloor Cat.servidor
    have h3 := hfloor Cat.comunidadeExterna
    have hq : ((Int.floor ((vagas : ℚ) * max 0 (pct Cat.aluno))
        + Int.floor ((vagas : ℚ) * max 0 (pct Cat.servidor))
        + Int.floor ((vagas : ℚ) * max 0 (pct Cat.comunidadeExterna)) : Int) : ℚ)
        ≤ (vagas : ℚ) := by
      push_cast
      linarith
    exact_mod_cast hq
  refine ⟨?_, compute_quota_nonneg vagas pct hv, ?_⟩
  · unfold compute_quota
    rw [distributeRemainder_sum]
    omega
  · intro h0 c
    subst h0
    unfold compute_quota
    simp [distributeRemainder, sumOverPriority_eq]

theorem C2_witness :
    (0 : Int) ≤ 10 ∧
    sumOverPriority (compute_quota 10 (fun c =>
      match c with
      | Cat.aluno => 6/10
      | Cat.servidor => 2/10
      | Cat.comunidadeExterna => 2/10)) = 10 := by
  refine ⟨by decide, ?_⟩
  have h := C2_compute_quota_sum_nonneg 10 (fun c =>
      match c with
      | Cat.aluno => 6/10
      | Cat.servidor => 2/10
      | Cat.comunidadeExterna => 2/10) (by decide) (fun c => by cases c <;> decide) (by decide)
  exact h.1

-- ---------------------------------------------------------------------
-- C1: determinism of run_lottery
-- ---------------------------------------------------------------------

/-- C1: `run_lottery` is deterministic: two calls with identical candidate
lists, the same slot count, the same three percentages and the same
integer seed return identical (admitted, waitlisted) pairs, including the
order of every element of both lists.  (The embedding threads the seeded
pseudo-random stream explicitly, so the result is a function of exactly
these inputs.) -/
theorem C1_run_lottery_deterministic
    (cands1 cands2 : List Candidate) (vagas1 vagas2 : Int)
    (pA1 pA2 pS1 pS2 pC1 pC2 : ℚ) (seed1 seed2 : Int)
    (hc : cands1 = cands2) (hv : vagas1 = vagas2) (hA : pA1 = pA2)
    (hS : pS1 = pS2) (hC : pC1 = pC2) (hseed : seed1 = seed2) :
    run_lottery cands1 vagas1 pA1 pS1 pC1 seed1
      = run_lottery cands2 vagas2 pA2 pS2 pC2 seed2 := by
  rw [hc, hv, hA, hS, hC, hseed]

theorem C1_witness :
    run_lottery [⟨[("id", "1")], Cat.aluno, none⟩] 7 (5/10) (3/10) (2/10) 42
      = run_lottery [⟨[("id", "1")], Cat.aluno, none⟩] 7 (5/10) (3/10) (2/10) 42 :=
  C1_run_lottery_deterministic _ _ _ _ _ _ _ _ _ _ _ _ rfl rfl rfl rfl rfl rfl

-- ---------------------------------------------------------------------
-- C7: error behavior of run_lottery
-- ---------------------------------------------------------------------

/-- C7: `run_lottery` raises an invalid-input error if and only if
`vagas > 0` and the three percentages sum to ≤ 0; when `vagas ≤ 0` it
returns `([], [])` without error, even when the percentage sum is ≤ 0
(the slot check precedes percentage normalization). -/
theorem C7_run_lottery_error_iff (candidates : List Candidate) (vagas : Int)
    (pA pS pC : ℚ) (seed : Int) :
    ((∃ e, run_lottery candidates vagas pA pS pC seed = .error e)
      ↔ 0 < vagas ∧ pA + pS + pC ≤ 0) ∧
    (vagas ≤ 0 → run_lottery candidates vagas pA pS pC seed = .ok ([], [])) := by
  unfold run_lottery
  constructor
  · by_cases h1 : vagas ≤ 0
    · simp only [if_pos h1]
      constructor
      · rintro ⟨e, he⟩
        exact Except.noConfusion he
      · rintro ⟨hv, -⟩
        omega
    · simp only [if_neg h1]
      by_cases h2 : pA + pS + pC ≤ 0
      · simp only [if_pos h2]
        exact ⟨fun _ => ⟨by omega, h2⟩, fun _ => ⟨_, rfl⟩⟩
      · simp only [if_neg h2]
        constructor
        · rintro ⟨e, he⟩
          exact Except.noConfusion he
        · rintro ⟨-, hle⟩
          exact absurd hle h2
  · intro h1
    simp only [if_pos h1]

theorem C7_witness :
    run_lottery [] (-1) 0 0 0 5 = .ok ([], []) :=
  (C7_run_lottery_error_iff [] (-1) 0 0 0 5).2 (by decide)

-- ---------------------------------------------------------------------
-- Category Drawer lemmas
-- ---------------------------------------------------------------------

theorem subperm_nodup {l₁ l₂ : List α} (h : l₁ <+~ l₂) (hnd : l₂.Nodup) : l₁.Nodup := by
  obtain ⟨l, hp, hs⟩ := h
  exact hp.nodup_iff.mp (hs.nodup hnd)

/-- For a duplicate-free pool, the selected list together with the
value-equality filtered rest is a permutation of the pool. -/
theorem sel_filter_perm [DecidableEq α] {group sel : List α}
    (hnd : group.Nodup) (hsub : sel <+~ group) :
    sel ++ group.filter (fun c => decide (c ∉ sel)) ~ group := by
  have hselnd : sel.Nodup := subperm_nodup hsub hnd
  have hfilnd : (group.filter (fun c => decide (c ∉ sel))).Nodup := hnd.filter _
  have hlhs : (sel ++ group.filter (fun c => decide (c ∉ sel))).Nodup := by
    refine List.nodup_append.mpr ⟨hselnd, hfilnd, fun a ha hb => ?_⟩
    have := List.of_mem_filter hb
    simp only [decide_eq_true_eq] at this
    exact this ha
  refine (List.perm_ext_iff_of_nodup hlhs hnd).mpr fun a => ?_
  simp only [List.mem_append, List.mem_filter, decide_eq_true_eq]
  constructor
  · rintro (h | ⟨h, -⟩)
    · exact hsub.subset h
    · exact h
  · intro h
    by_cases hs : a ∈ sel
    · exact Or.inl hs
    · exact Or.inr ⟨h, hs⟩

/-- The two lists returned by `draw_for_category` partition a
duplicate-free pool. -/
theorem draw_for_category_perm (s : Nat) (group : List Candidate) (k : Int)
    (hnd : group.Nodup) :
    (draw_for_category s group k).2.1 ++ (draw_for_category s group k).2.2 ~ group := by
  unfold draw_for_category
  by_cases h1 : k ≤ 0 ∨ group = []
  · simp [h1]
  · simp only [if_neg h1]
    by_cases h2 : (group.length : Int) ≤ k
    · simpa [h2] using shuffle_perm s group
    · simp only [if_neg h2]
      have hsub := sample_subperm s group k.toNat
      have hshuf := shuffle_perm (sample s group k.toNat).1
        (group.filter (fun c => decide (c ∉ (sample s group k.toNat).2)))
      exact ((hshuf.append_left _).trans (sel_filter_perm hnd hsub))

/-- The winners list of `draw_for_category` has length `min k n` (for
`k ≥ 0`, with `n` the pool size); no duplicate-freeness is needed. -/
theorem draw_for_category_winners_length (s : Nat) (group : List Candidate) (k : Int)
    (hk : 0 ≤ k) :
    (draw_for_category s group k).2.1.length = min k.toNat group.length := by
  unfold draw_for_category
  by_cases h1 : k ≤ 0 ∨ group = []
  · rcases h1 with h1 | h1
    · have : k = 0 := le_antisymm h1 hk
      simp [this]
    · simp [h1]
  · simp only [if_neg h1]
    push_neg at h1
    by_cases h2 : (group.length : Int) ≤ k
    · have hlen : (shuffle s group).2.length = group.length := (shuffle_perm s group).length_eq
      have : group.length ≤ k.toNat := by omega
      simp only [if_pos h2]
      simp only [hlen]
      omega
    · simp only [if_neg h2]
      exact sample_length s group k.toNat

-- ---------------------------------------------------------------------
-- C3: draw_for_category partitions the pool
-- ---------------------------------------------------------------------

/-- C3 (counterexample): the claim fails for pools containing duplicate
(structurally equal) candidates: with the two-copy pool `[c, c]` and
target `k = 1`, the winners list is `[c]` but the waitlist is empty
(`[c for c in group if c not in selected]` removes both copies), so
`|waitlist| = 0 ≠ 2 - 1` and one pool entry is lost. -/
theorem C3_counterexample :
    ¬ ((draw_for_category 0 [⟨[], Cat.aluno, none⟩, ⟨[], Cat.aluno, none⟩] 1).2.1.length
          = min (1 : Int).toNat 2 ∧
       (draw_for_category 0 [⟨[], Cat.aluno, none⟩, ⟨[], Cat.aluno, none⟩] 1).2.2.length
          = 2 - (draw_for_category 0 [⟨[], Cat.aluno, none⟩, ⟨[], Cat.aluno, none⟩] 1).2.1.length ∧
       (∀ c ∈ ([⟨[], Cat.aluno, none⟩, ⟨[], Cat.aluno, none⟩] : List Candidate),
          c ∈ (draw_for_category 0 [⟨[], Cat.aluno, none⟩, ⟨[], Cat.aluno, none⟩] 1).2.1
            ∨ c ∈ (draw_for_category 0 [⟨[], Cat.aluno, none⟩, ⟨[], Cat.aluno, none⟩] 1).2.2)) := by
  decide

/-- C3 (amended): for every duplicate-free pool of size `n` and every
target `k ≥ 0`, `draw_for_category` returns `(winners, waitlist)` with
`|winners| = min(k, n)`, `|waitlist| = n - |winners|`, the two lists
disjoint, and every pool member in exactly one of them. -/
theorem C3_draw_for_category_partition (s : Nat) (group : List Candidate) (k : Int)
    (hk : 0 ≤ k) (hnd : group.Nodup) :
    (draw_for_category s group k).2.1.length = min k.toNat group.length ∧
    (draw_for_category s group k).2.2.length
      = group.length - (draw_for_category s group k).2.1.length ∧
    (∀ c, ¬ (c ∈ (draw_for_category s group k).2.1
              ∧ c ∈ (draw_for_category s group k).2.2)) ∧
    (∀ c, c ∈ group ↔ c ∈ (draw_for_category s group k).2.1
              ∨ c ∈ (draw_for_category s group k).2.2) := by
  have hperm := draw_for_category_perm s group k hnd
  have hlen := draw_for_category_winners_length s group k hk
  have hlen2 := hperm.length_eq
  simp only [List.length_append] at hlen2
  have hnodup : ((draw_for_category s group k).2.1
      ++ (draw_for_category s group k).2.2).Nodup :=
    hperm.nodup_iff.mpr hnd
  have hdisj := List.disjoint_of_nodup_append hnodup
  refine ⟨hlen, by omega, fun c hc => hdisj hc.1 hc.2, fun c => ?_⟩
  rw [← List.mem_append]
  exact hperm.mem_iff.symm

theorem C3_witness :
    (0 : Int) ≤ 1 ∧
    (draw_for_category 0 [⟨[("id", "1")], Cat.aluno, none⟩,
        ⟨[("id", "2")], Cat.aluno, none⟩] 1).2.1.length = min (1 : Int).toNat 2 := by
  refine ⟨by decide, ?_⟩
  have h := C3_draw_for_category_partition 0 [⟨[("id", "1")], Cat.aluno, none⟩,
      ⟨[("id", "2")], Cat.aluno, none⟩] 1 (by decide) (by decide)
  simpa using h.1

-- ---------------------------------------------------------------------
-- Shortfall Redistributor lemmas
-- ---------------------------------------------------------------------

theorem fillFromCat_eq (wait : List Candidate) : ∀ (sel : List Candidate) (d : Int),
    fillFromCat sel wait d
      = (sel ++ wait.take (min d.toNat wait.length),
         wait.drop (min d.toNat wait.length),
         d - min d.toNat wait.length) := by
  induction wait with
  | nil => intro sel d; simp [fillFromCat]
  | cons c rest ih =>
      intro sel d
      by_cases hd : 0 < d
      · rw [fillFromCat, if_pos hd, ih]
        have h1 : min d.toNat (c :: rest).length = min (d - 1).toNat rest.length + 1 := by
          simp only [List.length_cons]
          omega
        have h3 : d - 1 - ((min (d - 1).toNat rest.length : Nat) : Int)
            = d - ((min (d - 1).toNat rest.length + 1 : Nat) : Int) := by
          push_cast
          omega
        rw [h1, List.take_succ_cons, List.drop_succ_cons, h3]
        simp
      · rw [fillFromCat, if_neg hd]
        have h1 : min d.toNat (c :: rest).length = 0 := by
          simp only [List.length_cons]
          omega
        rw [h1]
        simp

/-- The total deficit computed at the start of `redistribute_shortfalls`. -/
def deficitTotal (sel : Cat → List Candidate) (quota : Cat → Int) : Int :=
  sumOverPriority (fun cat => max 0 (quota cat - ((sel cat).length : Int)))

/-- How many waitlisted Aluno candidates the redistribution moves. -/
def takeAluno (sel wait : Cat → List Candidate) (quota : Cat → Int) : Nat :=
  min (deficitTotal sel quota).toNat (wait Cat.aluno).length

/-- How many waitlisted Servidor candidates the redistribution moves. -/
def takeServidor (sel wait : Cat → List Candidate) (quota : Cat → Int) : Nat :=
  min ((deficitTotal sel quota) - takeAluno sel wait quota).toNat (wait Cat.servidor).length

/-- How many waitlisted Comunidade Externa candidates the redistribution
moves. -/
def takeComunidade (sel wait : Cat → List Candidate) (quota : Cat → Int) : Nat :=
  min ((deficitTotal sel quota) - takeAluno sel wait quota
        - takeServidor sel wait quota).toNat
    (wait Cat.comunidadeExterna).length

/-- Closed form of `redistribute_shortfalls`: each category's selected list
is extended with a front segment of its own waitlist, the waitlist keeps
the rest, and the segment sizes drain the total deficit in priority
order. -/
theorem redistribute_shortfalls_eqns (rng : Nat) (sel wait : Cat → List Candidate)
    (quota : Cat → Int) :
    (redistribute_shortfalls rng sel wait quota).1 Cat.aluno
        = sel Cat.aluno ++ (wait Cat.aluno).take (takeAluno sel wait quota) ∧
    (redistribute_shortfalls rng sel wait quota).2 Cat.aluno
        = (wait Cat.aluno).drop (takeAluno sel wait quota) ∧
    (redistribute_shortfalls rng sel wait quota).1 Cat.servidor
        = sel Cat.servidor ++ (wait Cat.servidor).take (takeServidor sel wait quota) ∧
    (redistribute_shortfalls rng sel wait quota).2 Cat.servidor
        = (wait Cat.servidor).drop (takeServidor sel wait quota) ∧
    (redistribute_shortfalls rng sel wait quota).1 Cat.comunidadeExterna
        = sel Cat.comunidadeExterna
            ++ (wait Cat.comunidadeExterna).take (takeComunidade sel wait quota) ∧
    (redistribute_shortfalls rng sel wait quota).2 Cat.comunidadeExterna
        = (wait Cat.comunidadeExterna).drop (takeComunidade sel wait quota) := by
  unfold redistribute_shortfalls takeAluno takeServidor takeComunidade deficitTotal
  by_cases h0 : sumOverPriority
      (fun cat => max 0 (quota cat - ((sel cat).length : Int))) = 0
  · rw [if_pos h0, h0]
    simp
  · rw [if_neg h0]
    simp only [PRIORITY, List.foldl, fillFromCat_eq, updateCat, reduceIte]
    exact ⟨rfl, rfl, rfl, rfl, rfl, rfl⟩

-- ---------------------------------------------------------------------
-- C6: redistribution priority
-- ---------------------------------------------------------------------

/-- C6: freed slots are filled by popping the front of the
highest-priority non-empty waitlist into that same category's winners,
regardless of which category has the shortfall: with priority
[Aluno, Servidor, Comunidade Externa], a shortfall in Aluno (whose own
waitlist is empty) that Servidor's waitlist can cover entirely is filled
with the first `D` candidates of Servidor's waitlist, appended to
Servidor's winners, and no candidate of Comunidade Externa's waitlist is
touched. -/
theorem C6_redistribute_priority (rng : Nat) (sel wait : Cat → List Candidate)
    (quota : Cat → Int)
    (hshort : 0 < quota Cat.aluno - ((sel Cat.aluno).length : Int))
    (hwA : wait Cat.aluno = [])
    (henough : (deficitTotal sel quota).toNat ≤ (wait Cat.servidor).length) :
    (redistribute_shortfalls rng sel wait quota).1 Cat.servidor
        = sel Cat.servidor ++ (wait Cat.servidor).take (deficitTotal sel quota).toNat ∧
    (redistribute_shortfalls rng sel wait quota).2 Cat.servidor
        = (wait Cat.servidor).drop (deficitTotal sel quota).toNat ∧
    (redistribute_shortfalls rng sel wait quota).1 Cat.aluno = sel Cat.aluno ∧
    (redistribute_shortfalls rng sel wait quota).1 Cat.comunidadeExterna
        = sel Cat.comunidadeExterna ∧
    (redistribute_shortfalls rng sel wait quota).2 Cat.comunidadeExterna
        = wait Cat.comunidadeExterna := by
  obtain ⟨e1, e2, e3, e4, e5, e6⟩ := redistribute_shortfalls_eqns rng sel wait quota
  have hD : 0 < deficitTotal sel quota := by
    unfold deficitTotal
    rw [sumOverPriority_eq]
    omega
  have hA : takeAluno sel wait quota = 0 := by
    unfold takeAluno
    rw [hwA]
    simp
  have hB : takeServidor sel wait quota = (deficitTotal sel quota).toNat := by
    unfold takeServidor
    rw [hA]
    omega
  have hC : takeComunidade sel wait quota = 0 := by
    unfold takeComunidade
    rw [hA, hB]
    omega
  refine ⟨?_, ?_, ?_, ?_, ?_⟩
  · rw [e3, hB]
  · rw [e4, hB]
  · rw [e1, hA]
    simp
  · rw [e5, hC]
    simp
  · rw [e6, hC]
    simp

theorem C6_witness :
    (redistribute_shortfalls 0
        (fun c => match c with
          | Cat.servidor => [⟨[("id", "s1")], Cat.servidor, none⟩]
          | _ => [])
        (fun c => match c with
          | Cat.servidor => [⟨[("id", "s2")], Cat.servidor, none⟩,
              ⟨[("id", "s3")], Cat.servidor, none⟩]
          | _ => [])
        (fun c => match c with
          | Cat.aluno => 1
          | Cat.servidor => 1
          | Cat.comunidadeExterna => 0)).1 Cat.servidor
      = [⟨[("id", "s1")], Cat.servidor, none⟩, ⟨[("id", "s2")], Cat.servidor, none⟩] ∧
    (redistribute_shortfalls 0
        (fun c => match c with
          | Cat.servidor => [⟨[("id", "s1")], Cat.servidor, none⟩]
          | _ => [])
        (fun c => match c with
          | Cat.servidor => [⟨[("id", "s2")], Cat.servidor, none⟩,
              ⟨[("id", "s3")], Cat.servidor, none⟩]
          | _ => [])
        (fun c => match c with
          | Cat.aluno => 1
          | Cat.servidor => 1
          | Cat.comunidadeExterna => 0)).2 Cat.comunidadeExterna = [] := by
  have h := C6_redistribute_priority 0
      (fun c => match c with
        | Cat.servidor => [⟨[("id", "s1")], Cat.servidor, none⟩]
        | _ => [])
      (fun c => match c with
        | Cat.servidor => [⟨[("id", "s2")], Cat.servidor, none⟩,
            ⟨[("id", "s3")], Cat.servidor, none⟩]
        | _ => [])
      (fun c => match c with
        | Cat.aluno => 1
        | Cat.servidor => 1
        | Cat.comunidadeExterna => 0) (by decide) rfl (by decide)
  exact ⟨h.1.trans (by decide), (h.2.2.2.2).trans rfl⟩

-- ---------------------------------------------------------------------
-- Lottery Orchestrator lemmas
-- ---------------------------------------------------------------------

/-- The Aluno draw performed by `lottery_core`. -/
def drawA (rng : Nat) (cands : List Candidate) (vagas : Int) (pcts : Cat → ℚ) :
    Nat × List Candidate × List Candidate :=
  draw_for_category rng (partition_by_category cands Cat.aluno)
    (compute_quota vagas pcts Cat.aluno)

/-- The Servidor draw performed by `lottery_core` (continuing the stream). -/
def drawS (rng : Nat) (cands : List Candidate) (vagas : Int) (pcts : Cat → ℚ) :
    Nat × List Candidate × List Candidate :=
  draw_for_category (drawA rng cands vagas pcts).1
    (partition_by_category cands Cat.servidor) (compute_quota vagas pcts Cat.servidor)

/-- The Comunidade Externa draw performed by `lottery_core`. -/
def drawC (rng : Nat) (cands : List Candidate) (vagas : Int) (pcts : Cat → ℚ) :
    Nat × List Candidate × List Candidate :=
  draw_for_category (drawS rng cands vagas pcts).1
    (partition_by_category cands Cat.comunidadeExterna)
    (compute_quota vagas pcts Cat.comunidadeExterna)

/-- The per-category winners after the draw loop of `lottery_core`. -/
def selDrawn (rng : Nat) (cands : List Candidate) (vagas : Int) (pcts : Cat → ℚ) :
    Cat → List Candidate :=
  updateCat (updateCat (updateCat (fun _ => []) Cat.aluno (drawA rng cands vagas pcts).2.1)
      Cat.servidor (drawS rng cands vagas pcts).2.1)
    Cat.comunidadeExterna (drawC rng cands vagas pcts).2.1

/-- The per-category waitlists after the draw loop of `lottery_core`. -/
def waitDrawn (rng : Nat) (cands : List Candidate) (vagas : Int) (pcts : Cat → ℚ) :
    Cat → List Candidate :=
  updateCat (updateCat (updateCat (fun _ => []) Cat.aluno (drawA rng cands vagas pcts).2.2)
      Cat.servidor (drawS rng cands vagas pcts).2.2)
    Cat.comunidadeExterna (drawC rng cands vagas pcts).2.2

/-- The redistribution step performed by `lottery_core`. -/
def redisCore (rng : Nat) (cands : List Candidate) (vagas : Int) (pcts : Cat → ℚ) :
    (Cat → List Candidate) × (Cat → List Candidate) :=
  redistribute_shortfalls (drawC rng cands vagas pcts).1
    (selDrawn rng cands vagas pcts) (waitDrawn rng cands vagas pcts)
    (compute_quota vagas pcts)

/-- Unfolding of `lottery_core` into the three sequential category draws,
the redistribution, the priority-order concatenations and the truncation. -/
theorem lottery_core_eq (rng : Nat) (cands : List Candidate) (vagas : Int) (pcts : Cat → ℚ) :
    lottery_core rng cands vagas pcts
      = (((redisCore rng cands vagas pcts).1 Cat.aluno
            ++ (redisCore rng cands vagas pcts).1 Cat.servidor
            ++ (redisCore rng cands vagas pcts).1 Cat.comunidadeExterna).take vagas.toNat,
         (redisCore rng cands vagas pcts).2 Cat.aluno
            ++ (redisCore rng cands vagas pcts).2 Cat.servidor
            ++ (redisCore rng cands vagas pcts).2 Cat.comunidadeExterna) := by
  unfold lottery_core redisCore selDrawn waitDrawn drawC drawS drawA
  simp only [PRIORITY, List.foldl, List.map, List.flatten, List.append_nil,
    List.append_assoc]

theorem selDrawn_aluno (rng : Nat) (cands : List Candidate) (vagas : Int) (pcts : Cat → ℚ) :
    selDrawn rng cands vagas pcts Cat.aluno = (drawA rng cands vagas pcts).2.1 := by
  simp [selDrawn, updateCat]

theorem selDrawn_servidor (rng : Nat) (cands : List Candidate) (vagas : Int) (pcts : Cat → ℚ) :
    selDrawn rng cands vagas pcts Cat.servidor = (drawS rng cands vagas pcts).2.1 := by
  simp [selDrawn, updateCat]

theorem selDrawn_comunidade (rng : Nat) (cands : List Candidate) (vagas : Int) (pcts : Cat → ℚ) :
    selDrawn rng cands vagas pcts Cat.comunidadeExterna
      = (drawC rng cands vagas pcts).2.1 := by
  simp [selDrawn, updateCat]

theorem waitDrawn_aluno (rng : Nat) (cands : List Candidate) (vagas : Int) (pcts : Cat → ℚ) :
    waitDrawn rng cands vagas pcts Cat.aluno = (drawA rng cands vagas pcts).2.2 := by
  simp [waitDrawn, updateCat]

theorem waitDrawn_servidor (rng : Nat) (cands : List Candidate) (vagas : Int) (pcts : Cat → ℚ) :
    waitDrawn rng cands vagas pcts Cat.servidor = (drawS rng cands vagas pcts).2.2 := by
  simp [waitDrawn, updateCat]

theorem waitDrawn_comunidade (rng : Nat) (cands : List Candidate) (vagas : Int) (pcts : Cat → ℚ) :
    waitDrawn rng cands vagas pcts Cat.comunidadeExterna
      = (drawC rng cands vagas pcts).2.2 := by
  simp [waitDrawn, updateCat]

theorem count_filter_categoria (cands : List Candidate) (a : Candidate) (cat : Cat) :
    (cands.filter (fun c => c.categoria = cat)).count a
      = if a.categoria = cat then cands.count a else 0 := by
  by_cases h : a.categoria = cat
  · rw [if_pos h]
    exact List.count_filter (by simp [h])
  · rw [if_neg h]
    refine List.count_eq_zero.mpr ?_
    intro hmem
    exact h (by simpa using (List.mem_filter.mp hmem).2)

/-- The three category buckets together are a permutation of the candidate
list. -/
theorem partition_perm (cands : List Candidate) :
    partition_by_category cands Cat.aluno ++ (partition_by_category cands Cat.servidor
      ++ partition_by_category cands Cat.comunidadeExterna) ~ cands := by
  rw [List.perm_iff_count]
  intro a
  simp only [List.count_append, partition_by_category, count_filter_categoria]
  rcases a with ⟨row, acat, turma⟩
  cases acat <;> simp

/-- Core counting fact behind C5: for a duplicate-free candidate list, the
admitted list produced by the lottery body has length
`min vagas (number of candidates)`; no assumption on the percentages is
needed because the quotas always sum to at least `vagas`. -/
theorem lottery_core_admitted_length (rng : Nat) (cands : List Candidate) (vagas : Int)
    (pcts : Cat → ℚ) (hnd : cands.Nodup) (hv : 0 ≤ vagas) :
    (lottery_core rng cands vagas pcts).1.length = min vagas.toNat cands.length := by
  have hqA := compute_quota_nonneg vagas pcts hv Cat.aluno
  have hqS := compute_quota_nonneg vagas pcts hv Cat.servidor
  have hqC := compute_quota_nonneg vagas pcts hv Cat.comunidadeExterna
  have hqsum := compute_quota_sum_ge vagas pcts hv
  rw [sumOverPriority_eq] at hqsum
  have hgnd : ∀ c : Cat, (partition_by_category cands c).Nodup :=
    fun c => hnd.filter _
  have hlA : (selDrawn rng cands vagas pcts Cat.aluno).length
      = min (compute_quota vagas pcts Cat.aluno).toNat
          (partition_by_category cands Cat.aluno).length := by
    rw [selDrawn_aluno]
    exact draw_for_category_winners_length _ _ _ hqA
  have hlS : (selDrawn rng cands vagas pcts Cat.servidor).length
      = min (compute_quota vagas pcts Cat.servidor).toNat
          (partition_by_category cands Cat.servidor).length := by
    rw [selDrawn_servidor]
    exact draw_for_category_winners_length _ _ _ hqS
  have hlC : (selDrawn rng cands vagas pcts Cat.comunidadeExterna).length
      = min (compute_quota vagas pcts Cat.comunidadeExterna).toNat
          (partition_by_category cands Cat.comunidadeExterna).length := by
    rw [selDrawn_comunidade]
    exact draw_for_category_winners_length _ _ _ hqC
  have hpermA : selDrawn rng cands vagas pcts Cat.aluno
      ++ waitDrawn rng cands vagas pcts Cat.aluno
      ~ partition_by_category cands Cat.aluno := by
    rw [selDrawn_aluno, waitDrawn_aluno]
    exact draw_for_category_perm _ _ _ (hgnd _)
  have hpermS : selDrawn rng cands vagas pcts Cat.servidor
      ++ waitDrawn rng cands vagas pcts Cat.servidor
      ~ partition_by_category cands Cat.servidor := by
    rw [selDrawn_servidor, waitDrawn_servidor]
    exact draw_for_category_perm _ _ _ (hgnd _)
  have hpermC : selDrawn rng cands vagas pcts Cat.comunidadeExterna
      ++ waitDrawn rng cands vagas pcts Cat.comunidadeExterna
      ~ partition_by_category cands Cat.comunidadeExterna := by
    rw [selDrawn_comunidade, waitDrawn_comunidade]
    exact draw_for_category_perm _ _ _ (hgnd _)
  have hwA := hpermA.length_eq
  have hwS := hpermS.length_eq
  have hwC := hpermC.length_eq
  simp only [List.length_append] at hwA hwS hwC
  have hn := (partition_perm cands).length_eq
  simp only [List.length_append] at hn
  obtain ⟨e1, e2, e3, e4, e5, e6⟩ := redistribute_shortfalls_eqns
    (drawC rng cands vagas pcts).1 (selDrawn rng cands vagas pcts)
    (waitDrawn rng cands vagas pcts) (compute_quota vagas pcts)
  have hDdef : deficitTotal (selDrawn rng cands vagas pcts) (compute_quota vagas pcts)
      = max 0 (compute_quota vagas pcts Cat.aluno
            - ((selDrawn rng cands vagas pcts Cat.aluno).length : Int))
        + max 0 (compute_quota vagas pcts Cat.servidor
            - ((selDrawn rng cands vagas pcts Cat.servidor).length : Int))
        + max 0 (compute_quota vagas pcts Cat.comunidadeExterna
            - ((selDrawn rng cands vagas pcts Cat.comunidadeExterna).length : Int)) := by
    unfold deficitTotal
    rw [sumOverPriority_eq]
  have htAdef : takeAluno (selDrawn rng cands vagas pcts) (waitDrawn rng cands vagas pcts)
        (compute_quota vagas pcts)
      = min (deficitTotal (selDrawn rng cands vagas pcts) (compute_quota vagas pcts)).toNat
          (waitDrawn rng cands vagas pcts Cat.aluno).length := rfl
  have htBdef : takeServidor (selDrawn rng cands vagas pcts) (waitDrawn rng cands vagas pcts)
        (compute_quota vagas pcts)
      = min ((deficitTotal (selDrawn rng cands vagas pcts) (compute_quota vagas pcts))
            - takeAluno (selDrawn rng cands vagas pcts) (waitDrawn rng cands vagas pcts)
                (compute_quota vagas pcts)).toNat
          (waitDrawn rng cands vagas pcts Cat.servidor).length := rfl
  have htCdef : takeComunidade (selDrawn rng cands vagas pcts) (waitDrawn rng cands vagas pcts)
        (compute_quota vagas pcts)
      = min ((deficitTotal (selDrawn rng cands vagas pcts) (compute_quota vagas pcts))
            - takeAluno (selDrawn rng cands vagas pcts) (waitDrawn rng cands vagas pcts)
                (compute_quota vagas pcts)
            - takeServidor (selDrawn rng cands vagas pcts) (waitDrawn rng cands vagas pcts)
                (compute_quota vagas pcts)).toNat
          (waitDrawn rng cands vagas pcts Cat.comunidadeExterna).length := rfl
  rw [lottery_core_eq]
  unfold redisCore
  simp only [e1, e3, e5, List.length_take, List.length_append]
  omega

/-- On the non-degenerate path (`vagas > 0`, positive percentage sum),
`run_lottery` normalizes the percentages and returns the row projection of
the lottery body's output. -/
theorem run_lottery_pos_eq (cands : List Candidate) (vagas : Int) (pA pS pC : ℚ)
    (seed : Int) (hv : 0 < vagas) (hpos : 0 < pA + pS + pC) :
    run_lottery cands vagas pA pS pC seed
      = .ok ((lottery_core (rngInit seed) cands vagas
            (fun cat => match cat with
              | Cat.aluno => pA / (pA + pS + pC)
              | Cat.servidor => pS / (pA + pS + pC)
              | Cat.comunidadeExterna => pC / (pA + pS + pC))).1.map (fun c => c.row),
          (lottery_core (rngInit seed) cands vagas
            (fun cat => match cat with
              | Cat.aluno => pA / (pA + pS + pC)
              | Cat.servidor => pS / (pA + pS + pC)
              | Cat.comunidadeExterna => pC / (pA + pS + pC))).2.map (fun c => c.row)) := by
  simp only [run_lottery]
  rw [if_neg (by omega : ¬ vagas ≤ 0), if_neg (not_le.mpr hpos)]

set_option maxHeartbeats 1000000 in
/-- The selected lists never overflow the slot count when the quotas sum
exactly to `vagas`. -/
theorem redis_sel_sum_le (rng : Nat) (cands : List Candidate) (vagas : Int)
    (pcts : Cat → ℚ) (hv : 0 ≤ vagas)
    (hqeq : sumOverPriority (compute_quota vagas pcts) = vagas) :
    ((redisCore rng cands vagas pcts).1 Cat.aluno).length
      + ((redisCore rng cands vagas pcts).1 Cat.servidor).length
      + ((redisCore rng cands vagas pcts).1 Cat.comunidadeExterna).length
    ≤ vagas.toNat := by
  have hqA := compute_quota_nonneg vagas pcts hv Cat.aluno
  have hqS := compute_quota_nonneg vagas pcts hv Cat.servidor
  have hqC := compute_quota_nonneg vagas pcts hv Cat.comunidadeExterna
  rw [sumOverPriority_eq] at hqeq
  have hlA : (selDrawn rng cands vagas pcts Cat.aluno).length
      = min (compute_quota vagas pcts Cat.aluno).toNat
          (partition_by_category cands Cat.aluno).length := by
    rw [selDrawn_aluno]
    exact draw_for_category_winners_length _ _ _ hqA
  have hlS : (selDrawn rng cands vagas pcts Cat.servidor).length
      = min (compute_quota vagas pcts Cat.servidor).toNat
          (partition_by_category cands Cat.servidor).length := by
    rw [selDrawn_servidor]
    exact draw_for_category_winners_length _ _ _ hqS
  have hlC : (selDrawn rng cands vagas pcts Cat.comunidadeExterna).length
      = min (compute_quota vagas pcts Cat.comunidadeExterna).toNat
          (partition_by_category cands Cat.comunidadeExterna).length := by
    rw [selDrawn_comunidade]
    exact draw_for_category_winners_length _ _ _ hqC
  obtain ⟨e1, e2, e3, e4, e5, e6⟩ := redistribute_shortfalls_eqns
    (drawC rng cands vagas pcts).1 (selDrawn rng cands vagas pcts)
    (waitDrawn rng cands vagas pcts) (compute_quota vagas pcts)
  have hDdef : deficitTotal (selDrawn rng cands vagas pcts) (compute_quota vagas pcts)
      = max 0 (compute_quota vagas pcts Cat.aluno
            - ((selDrawn rng cands vagas pcts Cat.aluno).length : Int))
        + max 0 (compute_quota vagas pcts Cat.servidor
            - ((selDrawn rng cands vagas pcts Cat.servidor).length : Int))
        + max 0 (compute_quota vagas pcts Cat.comunidadeExterna
            - ((selDrawn rng cands vagas pcts Cat.comunidadeExterna).length : Int)) := by
    unfold deficitTotal
    rw [sumOverPriority_eq]
  have htAdef : takeAluno (selDrawn rng cands vagas pcts) (waitDrawn rng cands vagas pcts)
        (compute_quota vagas pcts)
      = min (deficitTotal (selDrawn rng cands vagas pcts) (compute_quota vagas pcts)).toNat
          (waitDrawn rng cands vagas pcts Cat.aluno).length := rfl
  have htBdef : takeServidor (selDrawn rng cands vagas pcts) (waitDrawn rng cands vagas pcts)
        (compute_quota vagas pcts)
      = min ((deficitTotal (selDrawn rng cands vagas pcts) (compute_quota vagas pcts))
            - takeAluno (selDrawn rng cands vagas pcts) (waitDrawn rng cands vagas pcts)
                (compute_quota vagas pcts)).toNat
          (waitDrawn rng cands vagas pcts Cat.servidor).length := rfl
  have htCdef : takeComunidade (selDrawn rng cands vagas pcts) (waitDrawn rng cands vagas pcts)
        (compute_quota vagas pcts)
      = min ((deficitTotal (selDrawn rng cands vagas pcts) (compute_quota vagas pcts))
            - takeAluno (selDrawn rng cands vagas pcts) (waitDrawn rng cands vagas pcts)
                (compute_quota vagas pcts)
            - takeServidor (selDrawn rng cands vagas pcts) (waitDrawn rng cands vagas pcts)
                (compute_quota vagas pcts)).toNat
          (waitDrawn rng cands vagas pcts Cat.comunidadeExterna).length := rfl
  unfold redisCore
  simp only [e1, e3, e5, List.length_append, List.length_take]
  omega

set_option maxHeartbeats 1000000 in
/-- Core partition fact behind C4: for a duplicate-free candidate list and
normalized non-negative percentages, the admitted and waitlisted lists of
the lottery body together are a permutation of the input (the defensive
truncation is a no-op because the quotas sum exactly to `vagas`). -/
theorem lottery_core_partition (rng : Nat) (cands : List Candidate) (vagas : Int)
    (pcts : Cat → ℚ) (hnd : cands.Nodup) (hv : 0 ≤ vagas)
    (hnn : ∀ c, 0 ≤ pcts c)
    (hsum : pcts Cat.aluno + pcts Cat.servidor + pcts Cat.comunidadeExterna = 1) :
    (lottery_core rng cands vagas pcts).1 ++ (lottery_core rng cands vagas pcts).2
      ~ cands := by
  have hqeq := (C2_compute_quota_sum_nonneg vagas pcts hv hnn hsum).1
  have hbound := redis_sel_sum_le rng cands vagas pcts hv hqeq
  have hgnd : ∀ c : Cat, (partition_by_category cands c).Nodup :=
    fun c => hnd.filter _
  have hpermA : selDrawn rng cands vagas pcts Cat.aluno
      ++ waitDrawn rng cands vagas pcts Cat.aluno
      ~ partition_by_category cands Cat.aluno := by
    rw [selDrawn_aluno, waitDrawn_aluno]
    exact draw_for_category_perm _ _ _ (hgnd _)
  have hpermS : selDrawn rng cands vagas pcts Cat.servidor
      ++ waitDrawn rng cands vagas pcts Cat.servidor
      ~ partition_by_category cands Cat.servidor := by
    rw [selDrawn_servidor, waitDrawn_servidor]
    exact draw_for_category_perm _ _ _ (hgnd _)
  have hpermC : selDrawn rng cands vagas pcts Cat.comunidadeExterna
      ++ waitDrawn rng cands vagas pcts Cat.comunidadeExterna
      ~ partition_by_category cands Cat.comunidadeExterna := by
    rw [selDrawn_comunidade, waitDrawn_comunidade]
    exact draw_for_category_perm _ _ _ (hgnd _)
  obtain ⟨e1, e2, e3, e4, e5, e6⟩ := redistribute_shortfalls_eqns
    (drawC rng cands vagas pcts).1 (selDrawn rng cands vagas pcts)
    (waitDrawn rng cands vagas pcts) (compute_quota vagas pcts)
  have hjoinA : (redisCore rng cands vagas pcts).1 Cat.aluno
        ++ (redisCore rng cands vagas pcts).2 Cat.aluno
      = selDrawn rng cands vagas pcts Cat.aluno
        ++ waitDrawn rng cands vagas pcts Cat.aluno := by
    unfold redisCore
    rw [e1, e2, List.append_assoc, List.take_append_drop]
  have hjoinS : (redisCore rng cands vagas pcts).1 Cat.servidor
        ++ (redisCore rng cands vagas pcts).2 Cat.servidor
      = selDrawn rng cands vagas pcts Cat.servidor
        ++ waitDrawn rng cands vagas pcts Cat.servidor := by
    unfold redisCore
    rw [e3, e4, List.append_assoc, List.take_append_drop]
  have hjoinC : (redisCore rng cands vagas pcts).1 Cat.comunidadeExterna
        ++ (redisCore rng cands vagas pcts).2 Cat.comunidadeExterna
      = selDrawn rng cands vagas pcts Cat.comunidadeExterna
        ++ waitDrawn rng cands vagas pcts Cat.comunidadeExterna := by
    unfold redisCore
    rw [e5, e6, List.append_assoc, List.take_append_drop]
  have hnotrunc : (lottery_core rng cands vagas pcts).1
      = (redisCore rng cands vagas pcts).1 Cat.aluno
        ++ (redisCore rng cands vagas pcts).1 Cat.servidor
        ++ (redisCore rng cands vagas pcts).1 Cat.comunidadeExterna := by
    rw [lottery_core_eq]
    exact List.take_of_length_le (by simp only [List.length_append]; omega)
  have hespera : (lottery_core rng cands vagas pcts).2
      = (redisCore rng cands vagas pcts).2 Cat.aluno
        ++ (redisCore rng cands vagas pcts).2 Cat.servidor
        ++ (redisCore rng cands vagas pcts).2 Cat.comunidadeExterna := by
    rw [lottery_core_eq]
  rw [hnotrunc, hespera]
  have hshuffle : ((redisCore rng cands vagas pcts).1 Cat.aluno
        ++ (redisCore rng cands vagas pcts).1 Cat.servidor
        ++ (redisCore rng cands vagas pcts).1 Cat.comunidadeExterna)
      ++ ((redisCore rng cands vagas pcts).2 Cat.aluno
        ++ (redisCore rng cands vagas pcts).2 Cat.servidor
        ++ (redisCore rng cands vagas pcts).2 Cat.comunidadeExterna)
      ~ ((redisCore rng cands vagas pcts).1 Cat.aluno
          ++ (redisCore rng cands vagas pcts).2 Cat.aluno)
        ++ (((redisCore rng cands vagas pcts).1 Cat.servidor
          ++ (redisCore rng cands vagas pcts).2 Cat.servidor)
        ++ ((redisCore rng cands vagas pcts).1 Cat.comunidadeExterna
          ++ (redisCore rng cands vagas pcts).2 Cat.comunidadeExterna)) := by
    rw [List.perm_iff_count]
    intro a
    simp only [List.count_append]
    omega
  refine hshuffle.trans ?_
  rw [hjoinA, hjoinS, hjoinC]
  exact (hpermA.append (hpermS.append hpermC)).trans (partition_perm cands)

-- ---------------------------------------------------------------------
-- C5: admitted length
-- ---------------------------------------------------------------------

/-- C5 (counterexample): with duplicate (structurally equal) candidates the
admitted list can be shorter than `min(vagas, n)`: three copies of the same
Aluno candidate with `vagas = 3` and percentages `(2, 0, 1)` admit only 2,
because the value-equality filtering of `draw_for_category` loses a copy
and no waitlist remains to refill the Comunidade Externa quota. -/
theorem C5_counterexample :
    run_lottery [⟨[], Cat.aluno, none⟩, ⟨[], Cat.aluno, none⟩, ⟨[], Cat.aluno, none⟩]
        3 2 0 1 0
      = .ok ([[], []], []) ∧
    ([[], []] : List Row).length ≠ min (3 : Int).toNat
      ([⟨[], Cat.aluno, none⟩, ⟨[], Cat.aluno, none⟩,
        ⟨[], Cat.aluno, none⟩] : List Candidate).length := by
  constructor
  · decide
  · decide

/-- C5 (amended): for every `run_lottery` call with `vagas > 0`, a positive
percentage sum, and pairwise distinct candidates, the admitted list has
length exactly `min(vagas, number of candidates)`: all slots are filled
when enough candidates exist, and otherwise every candidate is admitted
with no error raised. -/
theorem C5_run_lottery_admitted_length (cands : List Candidate) (vagas : Int)
    (pA pS pC : ℚ) (seed : Int) (hnd : cands.Nodup) (hv : 0 < vagas)
    (hpos : 0 < pA + pS + pC) :
    ∀ adm wl, run_lottery cands vagas pA pS pC seed = .ok (adm, wl) →
      adm.length = min vagas.toNat cands.length := by
  intro adm wl h
  rw [run_lottery_pos_eq cands vagas pA pS pC seed hv hpos] at h
  simp only [Except.ok.injEq, Prod.mk.injEq] at h
  obtain ⟨h1, h2⟩ := h
  rw [← h1, List.length_map]
  exact lottery_core_admitted_length _ _ _ _ hnd (le_of_lt hv)

theorem C5_witness :
    ([[("id", "1")]] : List Row).length
      = min (2 : Int).toNat ([⟨[("id", "1")], Cat.aluno, none⟩] : List Candidate).length :=
  C5_run_lottery_admitted_length [⟨[("id", "1")], Cat.aluno, none⟩] 2 1 0 0 0
    (by decide) (by decide) (by decide) [[("id", "1")]] [] (by decide)

-- ---------------------------------------------------------------------
-- C4: exactly-one membership
-- ---------------------------------------------------------------------

set_option maxRecDepth 10000 in
/-- C4 (counterexample): the claim fails as stated for two reasons.  With
two structurally equal Aluno candidates, one slot and percentages
`(0, 0, 1)` the shared row ends up in BOTH lists (the Aluno waitlist keeps
a duplicate while redistribution moves one copy into the winners).  With a
negative percentage (`(-1, 2, 0)`, sum `1 > 0`) the quotas overshoot
`vagas`, the defensive truncation cuts an over-drawn winner, and candidate
`id=1` lands in NEITHER list. -/
theorem C4_counterexample :
    (run_lottery [⟨[], Cat.aluno, none⟩, ⟨[], Cat.aluno, none⟩] 1 0 0 1 0
        = .ok ([[]], [[]]) ∧
      ([] : Row) ∈ ([[]] : List Row) ∧ ([] : Row) ∈ ([[]] : List Row)) ∧
    (run_lottery [⟨[("id", "1")], Cat.servidor, none⟩,
          ⟨[("id", "2")], Cat.servidor, none⟩] 1 (-1) 2 0 0
        = .ok ([[("id", "2")]], []) ∧
      ([("id", "1")] : Row) ∉ ([[("id", "2")]] : List Row) ∧
      ([("id", "1")] : Row) ∉ ([] : List Row)) := by
  refine ⟨⟨by decide, by decide, by decide⟩, by decide, by decide, by decide⟩

set_option maxHeartbeats 1000000 in
/-- C4 (amended): for every `run_lottery` call with `vagas > 0`, three
non-negative percentages with positive sum, and pairwise distinct candidate
rows, each input candidate's row appears in exactly one of the returned
admitted and waitlisted lists: never in both and never in neither. -/
theorem C4_run_lottery_exactly_one (cands : List Candidate) (vagas : Int)
    (pA pS pC : ℚ) (seed : Int)
    (hrows : (cands.map (fun c => c.row)).Nodup)
    (hv : 0 < vagas) (hnA : 0 ≤ pA) (hnS : 0 ≤ pS) (hnC : 0 ≤ pC) :
    ∀ adm wl, run_lottery cands vagas pA pS pC seed = .ok (adm, wl) →
      ∀ c ∈ cands, (c.row ∈ adm ∧ c.row ∉ wl) ∨ (c.row ∉ adm ∧ c.row ∈ wl) := by
  intro adm wl h c hc
  have hnd : cands.Nodup := List.Nodup.of_map _ hrows
  by_cases hpos : 0 < pA + pS + pC
  case neg =>
    simp only [run_lottery] at h
    rw [if_neg (by omega : ¬ vagas ≤ 0), if_pos (not_lt.mp hpos)] at h
    exact Except.noConfusion h
  rw [run_lottery_pos_eq cands vagas pA pS pC seed hv hpos] at h
  simp only [Except.ok.injEq, Prod.mk.injEq] at h
  obtain ⟨h1, h2⟩ := h
  have ht : (0 : ℚ) < pA + pS + pC := hpos
  have hnn : ∀ c : Cat, 0 ≤ (fun cat => match cat with
      | Cat.aluno => pA / (pA + pS + pC)
      | Cat.servidor => pS / (pA + pS + pC)
      | Cat.comunidadeExterna => pC / (pA + pS + pC)) c := by
    intro c
    cases c
    · exact div_nonneg hnA (le_of_lt ht)
    · exact div_nonneg hnS (le_of_lt ht)
    · exact div_nonneg hnC (le_of_lt ht)
  have hsum : pA / (pA + pS + pC) + pS / (pA + pS + pC) + pC / (pA + pS + pC) = 1 := by
    rw [div_add_div_same, div_add_div_same]
    exact div_self (ne_of_gt ht)
  have hperm := lottery_core_partition (rngInit seed) cands vagas
    (fun cat => match cat with
      | Cat.aluno => pA / (pA + pS + pC)
      | Cat.servidor => pS / (pA + pS + pC)
      | Cat.comunidadeExterna => pC / (pA + pS + pC))
    hnd (le_of_lt hv) hnn hsum
  have hand : ((lottery_core (rngInit seed) cands vagas
      (fun cat => match cat with
        | Cat.aluno => pA / (pA + pS + pC)
        | Cat.servidor => pS / (pA + pS + pC)
        | Cat.comunidadeExterna => pC / (pA + pS + pC))).1
      ++ (lottery_core (rngInit seed) cands vagas
      (fun cat => match cat with
        | Cat.aluno => pA / (pA + pS + pC)
        | Cat.servidor => pS / (pA + pS + pC)
        | Cat.comunidadeExterna => pC / (pA + pS + pC))).2).Nodup :=
    hperm.nodup_iff.mpr hnd
  have hdisj := List.disjoint_of_nodup_append hand
  have hsub1 : (lottery_core (rngInit seed) cands vagas
      (fun cat => match cat with
        | Cat.aluno => pA / (pA + pS + pC)
        | Cat.servidor => pS / (pA + pS + pC)
        | Cat.comunidadeExterna => pC / (pA + pS + pC))).1 ⊆ cands :=
    fun x hx => hperm.subset (List.mem_append_left _ hx)
  have hsub2 : (lottery_core (rngInit seed) cands vagas
      (fun cat => match cat with
        | Cat.aluno => pA / (pA + pS + pC)
        | Cat.servidor => pS / (pA + pS + pC)
        | Cat.comunidadeExterna => pC / (pA + pS + pC))).2 ⊆ cands :=
    fun x hx => hperm.subset (List.mem_append_right _ hx)
  have hinj := List.inj_on_of_nodup_map hrows
  have hrow1 : c.row ∈ adm ↔ c ∈ (lottery_core (rngInit seed) cands vagas
      (fun cat => match cat with
        | Cat.aluno => pA / (pA + pS + pC)
        | Cat.servidor => pS / (pA + pS + pC)
        | Cat.comunidadeExterna => pC / (pA + pS + pC))).1 := by
    rw [← h1]
    constructor
    · intro hm
      obtain ⟨a, ha, hae⟩ := List.mem_map.mp hm
      have : a = c := hinj (hsub1 ha) hc hae
      exact this ▸ ha
    · intro hm
      exact List.mem_map_of_mem _ hm
  have hrow2 : c.row ∈ wl ↔ c ∈ (lottery_core (rngInit seed) cands vagas
      (fun cat => match cat with
        | Cat.aluno => pA / (pA + pS + pC)
        | Cat.servidor => pS / (pA + pS + pC)
        | Cat.comunidadeExterna => pC / (pA + pS + pC))).2 := by
    rw [← h2]
    constructor
    · intro hm
      obtain ⟨a, ha, hae⟩ := List.mem_map.mp hm
      have : a = c := hinj (hsub2 ha) hc hae
      exact this ▸ ha
    · intro hm
      exact List.mem_map_of_mem _ hm
  rcases List.mem_append.mp (hperm.mem_iff.mpr hc) with hin | hin
  · exact Or.inl ⟨hrow1.mpr hin, fun hcon => hdisj hin (hrow2.mp hcon)⟩
  · exact Or.inr ⟨fun hcon => hdisj (hrow1.mp hcon) hin, hrow2.mpr hin⟩

theorem C4_witness :
    (([("id", "1")] : Row) ∈ ([[("id", "1")]] : List Row)
        ∧ ([("id", "1")] : Row) ∉ ([[("id", "2")]] : List Row))
      ∨ (([("id", "1")] : Row) ∉ ([[("id", "1")]] : List Row)
        ∧ ([("id", "1")] : Row) ∈ ([[("id", "2")]] : List Row)) :=
  C4_run_lottery_exactly_one
    [⟨[("id", "1")], Cat.aluno, none⟩, ⟨[("id", "2")], Cat.servidor, none⟩] 1 1 1 1 0
    (by decide) (by decide) (by decide) (by decide) (by decide)
    [[("id", "1")]] [[("id", "2")]] (by decide)
    ⟨[("id", "1")], Cat.aluno, none⟩ (by decide)
